import Mathlib

/-!
Verification of the tinycbg library: a 16x16 grid of tiles (height plus
optional prefab marker), a two-section text codec for it, and a gcd-based
line-selection algorithm. The Rust sources are embedded shallowly:
machine integers become Int/Nat with explicit wraparound where it can
occur, panics (failed asserts, out-of-bounds indexing, division by zero)
become the `none` case of an `Option`, and recoverable parse errors are
an `Except` value.
-/

deriving instance DecidableEq for Except

namespace Tinycbg

/-- Prefab markers, in source declaration order (src/tile.rs). -/
inductive Prefab where
  | Projectile
  | Melee
  | HideousMass
  | JumpPad
  | Stairs
  | None
deriving DecidableEq

/-- A tile: a height (i8 in the source) and a prefab (src/tile.rs). -/
structure Tile where
  height : Int
  prefab : Prefab
deriving DecidableEq

/-- The pattern owns 256 tiles in row-major order (src/lib.rs). -/
structure CyberGrindPattern where
  tiles : List Tile
deriving DecidableEq

/-- Two's-complement wraparound of an i8 value, the release-profile
semantics of Rust i8 arithmetic. -/
def wrap8 (x : Int) : Int :=
  (x + 128) % 256 - 128

/-- Tile::check_height (src/tile.rs): asserts -50 <= h <= 50.
Returns the Bool the asserts test; a `false` means the caller panics. -/
def check_height (h : Int) : Bool :=
  decide (h ≤ 50) && decide (-50 ≤ h)

/-- Tile::new (src/tile.rs); `none` models the panic of check_height. -/
def Tile.new (h : Int) (p : Prefab) : Option Tile :=
  if check_height h then some ⟨h, p⟩ else none

/-- Tile::with_height (src/tile.rs). -/
def Tile.with_height (h : Int) : Option Tile :=
  if check_height h then some ⟨h, Prefab.None⟩ else none

/-- Tile::with_prefab (src/tile.rs). -/
def Tile.with_prefab (p : Prefab) : Tile :=
  ⟨0, p⟩

/-- Tile::set_height (src/tile.rs). -/
def Tile.set_height (t : Tile) (nh : Int) : Option Tile :=
  if check_height nh then some ⟨nh, t.prefab⟩ else none

/-- Tile::set_prefab (src/tile.rs). -/
def Tile.set_prefab (t : Tile) (p : Prefab) : Tile :=
  ⟨t.height, p⟩

/-- the From i8 conversion for Tile (src/tile.rs). -/
def Tile.fromHeight (h : Int) : Option Tile :=
  if check_height h then some ⟨h, Prefab.None⟩ else none

/-- Add i8 for Tile (src/tile.rs): the i8 sum wraps in release builds,
then check_height runs on the wrapped value. -/
def Tile.addHeight (t : Tile) (rhs : Int) : Option Tile :=
  let nh := wrap8 (t.height + rhs)
  if check_height nh then some ⟨nh, t.prefab⟩ else none

/-- Sub i8 for Tile (src/tile.rs). -/
def Tile.subHeight (t : Tile) (rhs : Int) : Option Tile :=
  let nh := wrap8 (t.height - rhs)
  if check_height nh then some ⟨nh, t.prefab⟩ else none

/-- CyberGrindPattern::new / default (src/lib.rs): 256 default tiles. -/
def CyberGrindPattern.new : CyberGrindPattern :=
  ⟨List.replicate 256 ⟨0, Prefab.None⟩⟩

/-- the From Vec conversion (src/lib.rs): copies values in order into a
fresh pattern, stopping after index 255. -/
def CyberGrindPattern.from_vec (values : List Tile) : CyberGrindPattern :=
  ⟨((values.take 256).enum).foldl (fun ts iv => ts.set iv.1 iv.2)
    CyberGrindPattern.new.tiles⟩

/-- CyberGrindPattern::copy_tile_to_row (src/lib.rs). -/
def CyberGrindPattern.copy_tile_to_row (p : CyberGrindPattern) (tile : Tile)
    (row : Nat) : CyberGrindPattern :=
  ⟨(List.range 16).foldl (fun ts i => ts.set (i + row * 16) tile) p.tiles⟩

/-- CyberGrindPattern::copy_tile_to_column (src/lib.rs). -/
def CyberGrindPattern.copy_tile_to_column (p : CyberGrindPattern) (tile : Tile)
    (column : Nat) : CyberGrindPattern :=
  ⟨(List.range 16).foldl (fun ts i => ts.set (i * 16 + column) tile) p.tiles⟩

/-! The writer (src/normal_fmt.rs, CyberGrindPattern::write). -/

/-- Decimal digit rendering (ASCII codes, most significant first) of a
natural number below 1000, covering every i8 magnitude; this is what
Rust `format!` produces for the numeric part of an i8. -/
def natDigits (n : Nat) : List Nat :=
  if n < 10 then [n + 48]
  else if n < 100 then [n / 10 + 48, n % 10 + 48]
  else [n / 100 + 48, n / 10 % 10 + 48, n % 10 + 48]

/-- Decimal literal of an i8 value as byte codes: an optional leading
minus sign, then the digits, mirroring `format!` on an i8. -/
def intLiteral (h : Int) : List Nat :=
  if h < 0 then 45 :: natDigits (-h).toNat else natDigits h.toNat

/-- One height cell of section 1 (src/normal_fmt.rs lines 33-43): the
source tests `(0..9).contains(&height)`, an exclusive upper bound, so
only heights 0 through 8 render as a bare digit; anything else becomes
a parenthesized literal. -/
def write_cell (t : Tile) : List Nat :=
  if 0 ≤ t.height ∧ t.height < 9 then [(t.height + 48).toNat]
  else 40 :: (intLiteral t.height ++ [41])

/-- The prefab byte of section 2 (src/normal_fmt.rs lines 60-67). -/
def prefab_char (p : Prefab) : Nat :=
  match p with
  | Prefab.None => 48
  | Prefab.Melee => 110
  | Prefab.Projectile => 112
  | Prefab.HideousMass => 72
  | Prefab.Stairs => 115
  | Prefab.JumpPad => 74

/-- Section 1: n rows of 16 cells, each row newline-terminated. -/
def writeHeightRows : Nat → List Tile → List Nat
  | 0, _ => []
  | n + 1, ts =>
    (ts.take 16).flatMap write_cell ++ [10] ++ writeHeightRows n (ts.drop 16)

/-- Section 2: n rows of 16 prefab bytes, each row newline-terminated. -/
def writePrefabRows : Nat → List Tile → List Nat
  | 0, _ => []
  | n + 1, ts =>
    (ts.take 16).map (fun t => prefab_char t.prefab) ++ [10]
      ++ writePrefabRows n (ts.drop 16)

/-- CyberGrindPattern::write (src/normal_fmt.rs): section 1, a blank
line, section 2.  The output is the byte sequence written to the file. -/
def write (p : CyberGrindPattern) : List Nat :=
  writeHeightRows 16 p.tiles ++ [10] ++ writePrefabRows 16 p.tiles

/-! The parser (src/normal_fmt.rs). Reads are strictly sequential, so
the absolute buffer index of the source becomes consumption from the
head of a suffix list; reading past the end of the input is the panic
of `bytes[buf_idx]`, modelled as `none`. -/

/-- The parse error kinds (src/lib.rs). -/
inductive ParseErrorType where
  | ExpectedNewline
  | InvalidHeightValue
  | DuplicateNegative
  | LeadingZero
  | InvalidHeightChar
  | InvalidPrefab
deriving DecidableEq

/-- ParseError (src/lib.rs): 1-based line and column, offending byte. -/
structure ParseError where
  line : Nat
  column : Nat
  char : Nat
  kind : ParseErrorType
deriving DecidableEq

/-- CyberGrindPattern::check_for_newline (src/normal_fmt.rs). -/
def check_for_newline (line column : Nat) (byte : Nat) :
    Except ParseError Unit :=
  if byte ≠ 10 then
    Except.error ⟨line, column, byte, ParseErrorType.ExpectedNewline⟩
  else
    Except.ok ()

/-- The scanning loop of parse_parentheses (src/normal_fmt.rs lines
112-152 plus the sign application and range check that follow it):
consumes bytes until the closing parenthesis, accumulating the decimal
magnitude in a wrapping i8.  Returns the validated height, the column
of the closing parenthesis, and the bytes after it. -/
def parseParensLoop : List Nat → Bool → Int → Nat → Nat →
    Option (Except ParseError (Int × Nat × List Nat))
  | [], _, _, _, _ => none
  | char :: rest, isNeg, height, line, column =>
    if char = 41 then
      let signed := if isNeg then wrap8 (-height) else height
      if ¬(-50 ≤ signed ∧ signed ≤ 50) then
        some (Except.error ⟨line, column, char, ParseErrorType.InvalidHeightValue⟩)
      else
        some (Except.ok (signed, column, rest))
    else if char = 45 then
      if isNeg then
        some (Except.error ⟨line, column, char, ParseErrorType.DuplicateNegative⟩)
      else
        parseParensLoop rest true height line (column + 1)
    else if ¬(48 ≤ char ∧ char ≤ 57) then
      some (Except.error ⟨line, column, char, ParseErrorType.InvalidHeightChar⟩)
    else if char = 48 ∧ height = 0 then
      some (Except.error ⟨line, column, char, ParseErrorType.LeadingZero⟩)
    else
      parseParensLoop rest isNeg
        (wrap8 (wrap8 (height * 10) + ((char : Int) - 48))) line (column + 1)

/-- CyberGrindPattern::parse_parentheses (src/normal_fmt.rs): the head
of the input is the opening parenthesis already seen by the caller; the
loop starts on the byte after it at the next column. -/
def parse_parentheses (bytes : List Nat) (line column : Nat) :
    Option (Except ParseError (Int × Nat × List Nat)) :=
  match bytes with
  | [] => none
  | _ :: rest => parseParensLoop rest false 0 line (column + 1)

/-- One height cell of the main parse loop (src/normal_fmt.rs lines
183-200): a parenthesized literal, or a bare digit, or an error. -/
def parseCell (bytes : List Nat) (line column : Nat) :
    Option (Except ParseError (Int × Nat × List Nat)) :=
  match bytes with
  | [] => none
  | char :: rest =>
    if char = 40 then
      parse_parentheses (char :: rest) line column
    else if ¬(48 ≤ char ∧ char ≤ 57) then
      some (Except.error ⟨line, column, char, ParseErrorType.InvalidHeightChar⟩)
    else
      some (Except.ok (((char : Int) - 48), column, rest))

/-- The inner column loop of section 1 (src/normal_fmt.rs lines
182-205): n cells, each stored through Tile::set_height (whose range
assert is the `check_height` guard), with the column advancing past
each cell.  Returns the heights, the column after the last cell, and
the remaining bytes. -/
def parseRowCells : Nat → List Nat → Nat → Nat →
    Option (Except ParseError (List Int × Nat × List Nat))
  | 0, bytes, _, column => some (Except.ok ([], column, bytes))
  | n + 1, bytes, line, column =>
    match parseCell bytes line column with
    | none => none
    | some (Except.error e) => some (Except.error e)
    | some (Except.ok (h, column2, rest)) =>
      if check_height h then
        match parseRowCells n rest line (column2 + 1) with
        | none => none
        | some (Except.error e) => some (Except.error e)
        | some (Except.ok (hs, columnEnd, rest2)) =>
          some (Except.ok (h :: hs, columnEnd, rest2))
      else none

/-- The outer row loop of section 1 (src/normal_fmt.rs lines 180-211):
n rows of 16 cells, each followed by a newline check, the line counter
advancing per row. -/
def parseHeightRows : Nat → List Nat → Nat →
    Option (Except ParseError (List (List Int) × Nat × List Nat))
  | 0, bytes, line => some (Except.ok ([], line, bytes))
  | n + 1, bytes, line =>
    match parseRowCells 16 bytes line 1 with
    | none => none
    | some (Except.error e) => some (Except.error e)
    | some (Except.ok (hs, column, rest)) =>
      match rest with
      | [] => none
      | b :: rest2 =>
        match check_for_newline line column b with
        | Except.error e => some (Except.error e)
        | Except.ok _ =>
          match parseHeightRows n rest2 (line + 1) with
          | none => none
          | some (Except.error e) => some (Except.error e)
          | some (Except.ok (rows, lineEnd, rest3)) =>
            some (Except.ok (hs :: rows, lineEnd, rest3))

/-- the TryFrom u8 conversion for Prefab (src/tile.rs). -/
def prefab_try_from (byte : Nat) : Except ParseErrorType Prefab :=
  if byte = 48 then Except.ok Prefab.None
  else if byte = 110 then Except.ok Prefab.Melee
  else if byte = 112 then Except.ok Prefab.Projectile
  else if byte = 72 then Except.ok Prefab.HideousMass
  else if byte = 74 then Except.ok Prefab.JumpPad
  else if byte = 115 then Except.ok Prefab.Stairs
  else Except.error ParseErrorType.InvalidPrefab

/-- The inner column loop of section 2 (src/normal_fmt.rs lines
221-239): n prefab bytes, columns counted from the given start. -/
def parsePrefabCells : Nat → List Nat → Nat → Nat →
    Option (Except ParseError (List Prefab × List Nat))
  | 0, bytes, _, _ => some (Except.ok ([], bytes))
  | n + 1, bytes, line, column =>
    match bytes with
    | [] => none
    | char :: rest =>
      match prefab_try_from char with
      | Except.error kind => some (Except.error ⟨line, column, char, kind⟩)
      | Except.ok p =>
        match parsePrefabCells n rest line (column + 1) with
        | none => none
        | some (Except.error e) => some (Except.error e)
        | some (Except.ok (ps, rest2)) => some (Except.ok (p :: ps, rest2))

/-- The outer row loop of section 2 (src/normal_fmt.rs lines 220-245):
n rows of 16 prefab bytes, each followed by a newline check at column
17. -/
def parsePrefabRows : Nat → List Nat → Nat →
    Option (Except ParseError (List (List Prefab) × List Nat))
  | 0, bytes, _ => some (Except.ok ([], bytes))
  | n + 1, bytes, line =>
    match parsePrefabCells 16 bytes line 1 with
    | none => none
    | some (Except.error e) => some (Except.error e)
    | some (Except.ok (ps, rest)) =>
      match rest with
      | [] => none
      | b :: rest2 =>
        match check_for_newline line 17 b with
        | Except.error e => some (Except.error e)
        | Except.ok _ =>
          match parsePrefabRows n rest2 (line + 1) with
          | none => none
          | some (Except.error e) => some (Except.error e)
          | some (Except.ok (rows, rest3)) =>
            some (Except.ok (ps :: rows, rest3))

/-- CyberGrindPattern::parse (src/normal_fmt.rs lines 172-248): 16
height rows starting at line 1, the separating blank line, 16 prefab
rows; the heights and prefabs are stored index by index into the
pattern, which amounts to pairing them positionally.  Trailing bytes
are ignored, as in the source. -/
def parse (bytes : List Nat) : Option (Except ParseError CyberGrindPattern) :=
  match parseHeightRows 16 bytes 1 with
  | none => none
  | some (Except.error e) => some (Except.error e)
  | some (Except.ok (hrows, line, rest)) =>
    match rest with
    | [] => none
    | b :: rest2 =>
      match check_for_newline line 1 b with
      | Except.error e => some (Except.error e)
      | Except.ok _ =>
        match parsePrefabRows 16 rest2 (line + 1) with
        | none => none
        | some (Except.error e) => some (Except.error e)
        | some (Except.ok (prows, _)) =>
          some (Except.ok ⟨List.zipWith (fun h p => Tile.mk h p)
            hrows.flatten prows.flatten⟩)

/-! The line selector (src/indexing.rs). -/

/-- The Euclid loop of greatest_common_divisor (src/indexing.rs lines
44-56), written with a fuel argument that dominates its iteration
count so the recursion is structural. -/
def gcd_loop : Nat → Nat → Nat → Nat
  | 0, a, _ => a
  | fuel + 1, a, b => if b = 0 then a else gcd_loop fuel b (a % b)

/-- greatest_common_divisor (src/indexing.rs): the loop runs at most
b + 1 times, so fuel b + 1 reproduces it exactly. -/
def greatest_common_divisor (a b : Nat) : Nat :=
  gcd_loop (b + 1) a b

/-- draw_line (src/indexing.rs lines 58-76): deltas, their gcd, the
reduced step, and gcd+1 emitted offsets written into a 16-entry buffer
(the iterator writes at most 16 of them); each offset is truncated to
u8 as in `idx as u8`.  When the two points coincide the gcd is 0 and
`dx / gcd` is a division by zero, which panics: that is the `none`
case.  Returns the buffer and the length gcd+1. -/
def draw_line (pa pb : Nat × Nat) : Option (List Nat × Nat) :=
  let dx := pb.1 - pa.1
  let dy := pb.2 - pa.2
  let g := greatest_common_divisor dx dy
  if g = 0 then none
  else
    let stepX := dx / g
    let stepY := dy / g
    some ((List.range 16).map (fun i =>
      if i < g + 1 then (pa.1 + i * stepX + (pa.2 + i * stepY) * 16) % 256
      else 0), g + 1)

/-- The Line view (src/indexing.rs): offsets buffer, length, and the
iterator cursor idx (0 on construction). The borrowed pattern is
passed separately to the operations below. -/
structure Line where
  buf : List Nat
  len : Nat
  idx : Nat
deriving DecidableEq

/-- CyberGrindPattern::line (src/indexing.rs lines 82-109): asserts
all four coordinates below 16, then runs draw_line. -/
def CyberGrindPattern.line (_p : CyberGrindPattern) (pa pb : Nat × Nat) :
    Option Line :=
  if pa.1 < 16 ∧ pa.2 < 16 ∧ pb.1 < 16 ∧ pb.2 < 16 then
    match draw_line pa pb with
    | none => none
    | some (buf, len) => some ⟨buf, len, 0⟩
  else none

/-- Index usize for Line (src/indexing.rs lines 158-165): asserts the
argument below 256, then reads `self.buf[self.idx]` — the iterator
cursor, not the argument — and returns that tile of the pattern. -/
def Line.index (p : CyberGrindPattern) (l : Line) (index : Nat) :
    Option Tile :=
  if index < 256 then
    match l.buf.get? l.idx with
    | none => none
    | some off =>
      match p.tiles.get? off with
      | none => none
      | some t => some t
  else none

/-- Line::set (src/indexing.rs lines 131-135): the iterator walks the
first len buffered offsets and assigns the tile at each. -/
def Line.set (p : CyberGrindPattern) (l : Line) (tile : Tile) :
    CyberGrindPattern :=
  ⟨(l.buf.take l.len).foldl (fun ts off => ts.set off tile) p.tiles⟩

/-- The all-minus-fifty, all-Melee pattern: the layout on which every
height cell costs the full five bytes. -/
def maxPattern : CyberGrindPattern :=
  ⟨List.replicate 256 ⟨-50, Prefab.Melee⟩⟩

/-- A pattern whose only nonzero tile sits at offset 17, the second
point of the diagonal from the origin to (2,2). -/
def probePattern : CyberGrindPattern :=
  ⟨(List.range 256).map (fun i =>
    if i = 17 then ⟨5, Prefab.None⟩ else ⟨0, Prefab.None⟩)⟩

/-! Helper lemmas about i8 wraparound and digit rendering. -/

theorem wrap8_eq_self (x : Int) (h1 : -128 ≤ x) (h2 : x ≤ 127) :
    wrap8 x = x := by
  unfold wrap8
  omega

theorem natDigits_lt10 (n : Nat) (h : n < 10) : natDigits n = [n + 48] := by
  unfold natDigits
  rw [if_pos h]

theorem natDigits_lt100 (n : Nat) (h1 : 10 ≤ n) (h2 : n < 100) :
    natDigits n = [n / 10 + 48, n % 10 + 48] := by
  unfold natDigits
  rw [if_neg (by omega), if_pos h2]

/-! Evaluation of the parenthesis-scanning loop on the writer's
output. -/

theorem loop_digit_step (d : Nat) (bs : List Nat) (isNeg : Bool)
    (height : Int) (line c : Nat) (h1 : 48 ≤ d) (h2 : d ≤ 57)
    (h3 : ¬(d = 48 ∧ height = 0)) :
    parseParensLoop (d :: bs) isNeg height line c =
      parseParensLoop bs isNeg
        (wrap8 (wrap8 (height * 10) + ((d : Int) - 48))) line (c + 1) := by
  simp only [parseParensLoop]
  rw [if_neg (by omega), if_neg (by omega),
    if_neg (not_not_intro ⟨h1, h2⟩), if_neg h3]

theorem loop_minus (bs : List Nat) (height : Int) (line c : Nat) :
    parseParensLoop (45 :: bs) false height line c =
      parseParensLoop bs true height line (c + 1) := by
  simp [parseParensLoop]

theorem loop_close (rest : List Nat) (isNeg : Bool) (height : Int)
    (line c : Nat)
    (h1 : -50 ≤ (if isNeg then wrap8 (-height) else height))
    (h2 : (if isNeg then wrap8 (-height) else height) ≤ 50) :
    parseParensLoop (41 :: rest) isNeg height line c =
      some (Except.ok ((if isNeg then wrap8 (-height) else height), c, rest)) := by
  simp only [parseParensLoop]
  rw [if_neg (not_not_intro ⟨h1, h2⟩)]
  simp

/-- Scanning the rendered digits of a magnitude between 1 and 50 and
the closing parenthesis yields the signed value, the column of the
closing parenthesis, and the remaining input. -/
theorem loop_digits (m : Nat) (isNeg : Bool) (rest : List Nat)
    (line c : Nat) (hm1 : 1 ≤ m) (hm2 : m ≤ 50) :
    parseParensLoop (natDigits m ++ 41 :: rest) isNeg 0 line c =
      some (Except.ok ((if isNeg then -(m : Int) else (m : Int)),
        c + (natDigits m).length, rest)) := by
  have hw : wrap8 (-(m : Int)) = -(m : Int) := by
    unfold wrap8
    omega
  have hsign : (if isNeg then wrap8 (-(m : Int)) else (m : Int))
      = (if isNeg then -(m : Int) else (m : Int)) := by
    cases isNeg <;> simp [hw]
  have hs1 : -50 ≤ (if isNeg then wrap8 (-(m : Int)) else (m : Int)) := by
    rw [hsign]
    cases isNeg <;> simp <;> omega
  have hs2 : (if isNeg then wrap8 (-(m : Int)) else (m : Int)) ≤ 50 := by
    rw [hsign]
    cases isNeg <;> simp <;> omega
  by_cases hlt : m < 10
  · rw [natDigits_lt10 m hlt]
    simp only [List.cons_append, List.nil_append, List.length_cons,
      List.length_nil]
    rw [loop_digit_step (m + 48) (41 :: rest) isNeg 0 line c (by omega)
      (by omega) (by omega)]
    have hacc : wrap8 (wrap8 (0 * 10) + (((m + 48 : Nat) : Int) - 48))
        = (m : Int) := by
      unfold wrap8
      push_cast
      omega
    rw [hacc, loop_close rest isNeg (m : Int) line (c + 1) hs1 hs2, hsign]
  · rw [natDigits_lt100 m (by omega) (by omega)]
    simp only [List.cons_append, List.nil_append, List.length_cons,
      List.length_nil]
    rw [loop_digit_step (m / 10 + 48) _ isNeg 0 line c (by omega)
      (by omega) (by omega)]
    have hacc1 : wrap8 (wrap8 (0 * 10) + (((m / 10 + 48 : Nat) : Int) - 48))
        = ((m / 10 : Nat) : Int) := by
      unfold wrap8
      push_cast
      omega
    rw [hacc1]
    rw [loop_digit_step (m % 10 + 48) _ isNeg _ line (c + 1) (by omega)
      (by omega) (by omega)]
    have hacc2 : wrap8 (wrap8 (((m / 10 : Nat) : Int) * 10)
        + (((m % 10 + 48 : Nat) : Int) - 48)) = (m : Int) := by
      unfold wrap8
      push_cast
      omega
    rw [hacc2, loop_close rest isNeg (m : Int) line (c + 1 + 1) hs1 hs2, hsign]

/-- Scanning a full parenthesized literal produced by the writer gives
back the height, the column of the closing parenthesis, and the rest
of the input. -/
theorem parse_parentheses_literal (h : Int) (rest : List Nat)
    (line c : Nat) (h1 : -50 ≤ h) (h2 : h ≤ 50)
    (h3 : ¬(0 ≤ h ∧ h < 9)) :
    parse_parentheses (40 :: (intLiteral h ++ 41 :: rest)) line c =
      some (Except.ok (h, c + 1 + (intLiteral h).length, rest)) := by
  simp only [parse_parentheses]
  by_cases hneg : h < 0
  · have hm1 : 1 ≤ (-h).toNat := by omega
    have hm2 : (-h).toNat ≤ 50 := by omega
    have hlit : intLiteral h = 45 :: natDigits (-h).toNat := by
      unfold intLiteral
      rw [if_pos hneg]
    rw [hlit]
    simp only [List.cons_append]
    rw [loop_minus, loop_digits (-h).toNat true (rest) line (c + 1 + 1)
      hm1 hm2]
    simp only [if_pos rfl, List.length_cons]
    have hv : -((((-h).toNat : Nat)) : Int) = h := by omega
    rw [hv]
    have hc : c + 1 + 1 + (natDigits (-h).toNat).length
        = c + 1 + ((natDigits (-h).toNat).length + 1) := by omega
    rw [hc]
    simp
  · have hpos : 9 ≤ h := by omega
    have hm1 : 1 ≤ h.toNat := by omega
    have hm2 : h.toNat ≤ 50 := by omega
    have hlit : intLiteral h = natDigits h.toNat := by
      unfold intLiteral
      rw [if_neg hneg]
    rw [hlit, loop_digits h.toNat false rest line (c + 1) hm1 hm2]
    have hv : (((h.toNat : Nat)) : Int) = h := by omega
    simp [hv]

/-- Parsing one cell of the writer's output returns the tile's height
and leaves exactly the remaining bytes. -/
theorem parseCell_write (t : Tile) (rest : List Nat) (line c : Nat)
    (hv : check_height t.height = true) :
    ∃ c2, parseCell (write_cell t ++ rest) line c =
      some (Except.ok (t.height, c2, rest)) := by
  have hr : -50 ≤ t.height ∧ t.height ≤ 50 := by
    unfold check_height at hv
    simp only [Bool.and_eq_true, decide_eq_true_eq] at hv
    omega
  by_cases hb : 0 ≤ t.height ∧ t.height < 9
  · refine ⟨c, ?_⟩
    have hw : write_cell t = [(t.height + 48).toNat] := by
      unfold write_cell
      rw [if_pos hb]
    rw [hw]
    simp only [List.cons_append, List.nil_append, parseCell]
    rw [if_neg (by omega), if_neg (not_not_intro (by constructor <;> omega))]
    have : (((t.height + 48).toNat : Nat) : Int) - 48 = t.height := by omega
    rw [this]
  · refine ⟨c + 1 + (intLiteral t.height).length, ?_⟩
    have hw : write_cell t = 40 :: (intLiteral t.height ++ [41]) := by
      unfold write_cell
      rw [if_neg hb]
    rw [hw]
    simp only [List.cons_append, List.append_assoc, List.singleton_append,
      List.nil_append, parseCell]
    rw [if_pos trivial]
    exact parse_parentheses_literal t.height rest line c hr.1 hr.2 hb

/-- Parsing n cells of writer output yields the heights of the n tiles
in order. -/
theorem parseRowCells_write (ts : List Tile) : ∀ (n : Nat)
    (rest : List Nat) (line c : Nat), ts.length = n →
    (∀ t ∈ ts, check_height t.height = true) →
    ∃ c2, parseRowCells n (ts.flatMap write_cell ++ rest) line c =
      some (Except.ok (ts.map Tile.height, c2, rest)) := by
  induction ts with
  | nil =>
    intro n rest line c hlen _
    subst hlen
    exact ⟨c, rfl⟩
  | cons t ts ih =>
    intro n rest line c hlen hval
    subst hlen
    have hvt : check_height t.height = true := hval t (by simp)
    obtain ⟨c2, hc2⟩ := parseCell_write t (ts.flatMap write_cell ++ rest)
      line c hvt
    obtain ⟨c3, hc3⟩ := ih ts.length rest line (c2 + 1) rfl
      (fun x hx => hval x (by simp [hx]))
    refine ⟨c3, ?_⟩
    simp only [List.flatMap_cons, List.append_assoc] at hc2 ⊢
    simp only [List.length_cons, parseRowCells, hc2, hvt, if_pos, hc3]
    rfl

/-- Parsing k full rows of the height section consumes the writer's
section text and yields the heights row by row; the line counter
advances by k. -/
theorem parseHeightRows_write (k : Nat) : ∀ (ts : List Tile)
    (rest : List Nat) (line : Nat), ts.length = 16 * k →
    (∀ t ∈ ts, check_height t.height = true) →
    ∃ rows, parseHeightRows k (writeHeightRows k ts ++ rest) line =
        some (Except.ok (rows, line + k, rest)) ∧
      rows.flatten = ts.map Tile.height := by
  induction k with
  | zero =>
    intro ts rest line hlen _
    refine ⟨[], rfl, ?_⟩
    have : ts = [] := List.length_eq_zero.mp (by omega)
    simp [this]
  | succ k ih =>
    intro ts rest line hlen hval
    have hlen16 : (ts.take 16).length = 16 := by
      rw [List.length_take]
      omega
    obtain ⟨c2, hc2⟩ := parseRowCells_write (ts.take 16) 16
      (10 :: (writeHeightRows k (ts.drop 16) ++ rest)) line 1 hlen16
      (fun x hx => hval x (List.take_subset 16 ts hx))
    obtain ⟨rows, hrows, hflat⟩ := ih (ts.drop 16) rest (line + 1)
      (by rw [List.length_drop]; omega)
      (fun x hx => hval x (List.drop_subset 16 ts hx))
    refine ⟨(ts.take 16).map Tile.height :: rows, ?_, ?_⟩
    · have hline : line + 1 + k = line + (k + 1) := by omega
      rw [hline] at hrows
      simp only [writeHeightRows, List.append_assoc, List.cons_append,
        List.singleton_append, List.nil_append, parseHeightRows]
      rw [hc2]
      simp [check_for_newline, hrows]
    · simp only [List.flatten_cons, hflat]
      rw [← List.map_append, List.take_append_drop]

/-- Every prefab byte the writer emits converts back to the same
prefab. -/
theorem prefab_roundtrip (p : Prefab) :
    prefab_try_from (prefab_char p) = Except.ok p := by
  cases p <;> rfl

/-- Parsing n prefab cells of writer output yields the prefabs of the
n tiles in order. -/
theorem parsePrefabCells_write (ts : List Tile) : ∀ (n : Nat)
    (rest : List Nat) (line c : Nat), ts.length = n →
    parsePrefabCells n
        (ts.map (fun t => prefab_char t.prefab) ++ rest) line c =
      some (Except.ok (ts.map Tile.prefab, rest)) := by
  induction ts with
  | nil =>
    intro n rest line c hlen
    subst hlen
    rfl
  | cons t ts ih =>
    intro n rest line c hlen
    subst hlen
    simp only [List.map_cons, List.cons_append, List.length_cons,
      parsePrefabCells, prefab_roundtrip]
    rw [ih ts.length rest line (c + 1) rfl]

/-- Parsing k full rows of the prefab section consumes the writer's
section text and yields the prefabs row by row. -/
theorem parsePrefabRows_write (k : Nat) : ∀ (ts : List Tile)
    (rest : List Nat) (line : Nat), ts.length = 16 * k →
    ∃ rows, parsePrefabRows k (writePrefabRows k ts ++ rest) line =
        some (Except.ok (rows, rest)) ∧
      rows.flatten = ts.map Tile.prefab := by
  induction k with
  | zero =>
    intro ts rest line hlen
    refine ⟨[], rfl, ?_⟩
    have : ts = [] := List.length_eq_zero.mp (by omega)
    simp [this]
  | succ k ih =>
    intro ts rest line hlen
    have hlen16 : (ts.take 16).length = 16 := by
      rw [List.length_take]
      omega
    have hc2 := parsePrefabCells_write (ts.take 16) 16
      (10 :: (writePrefabRows k (ts.drop 16) ++ rest)) line 1 hlen16
    obtain ⟨rows, hrows, hflat⟩ := ih (ts.drop 16) rest (line + 1)
      (by rw [List.length_drop]; omega)
    refine ⟨(ts.take 16).map Tile.prefab :: rows, ?_, ?_⟩
    · simp only [writePrefabRows, List.append_assoc, List.cons_append,
        List.singleton_append, List.nil_append, parsePrefabRows]
      rw [hc2]
      simp [check_for_newline, hrows]
    · simp only [List.flatten_cons, hflat]
      rw [← List.map_append, List.take_append_drop]

/-- Re-pairing the projected heights and prefabs of a tile list
reconstructs the list. -/
theorem zip_height_prefab (ts : List Tile) :
    List.zipWith (fun h p => Tile.mk h p)
      (ts.map Tile.height) (ts.map Tile.prefab) = ts := by
  induction ts with
  | nil => rfl
  | cons t ts ih => simp [ih]

/-- C1: for every Grid whose 256 tiles all carry an elevation in
[-50, 50], with any marker assignment, parsing the serialized byte
output returns the original grid. -/
theorem C1_parse_write_roundtrip (p : CyberGrindPattern)
    (hlen : p.tiles.length = 256)
    (hval : ∀ t ∈ p.tiles, check_height t.height = true) :
    parse (write p) = some (Except.ok p) := by
  obtain ⟨hrows, hhr, hhflat⟩ := parseHeightRows_write 16 p.tiles
    (10 :: writePrefabRows 16 p.tiles) 1 (by omega) hval
  obtain ⟨prows, hpr, hpflat⟩ := parsePrefabRows_write 16 p.tiles [] 18
    (by omega)
  unfold write
  simp only [List.append_assoc, List.cons_append, List.singleton_append,
    List.nil_append, parse]
  rw [hhr]
  simp only [check_for_newline]
  rw [if_neg (by omega)]
  rw [List.append_nil] at hpr
  rw [hpr]
  simp only [hhflat, hpflat, zip_height_prefab]

set_option maxRecDepth 40000 in
/-- C1 witness: the round trip evaluated on the default grid. -/
theorem C1_witness :
    parse (write CyberGrindPattern.new) =
      some (Except.ok CyberGrindPattern.new) :=
  C1_parse_write_roundtrip CyberGrindPattern.new (by decide) (by decide)

/-! Serialization boundary (claim C2). -/

/-- C2 counterexample: elevation 9 does not serialize as the bare
digit "9"; the writer's range test is exclusive at 9, so it emits the
parenthesized form "(9)" instead. -/
theorem C2_counterexample :
    write_cell ⟨9, Prefab.None⟩ ≠ [57] ∧
    write_cell ⟨9, Prefab.None⟩ = [40, 57, 41] := by
  decide

/-- C2 (amended): a cell serializes as a single bare ASCII digit
exactly when its elevation is in [0, 8]; elevation 9 serializes as
"(9)", elevation 10 as "(10)", and elevation -1 as "(-1)". -/
theorem C2_bare_digit_boundary :
    (∀ t : Tile, (∃ d, write_cell t = [d] ∧ 48 ≤ d ∧ d ≤ 57) ↔
      (0 ≤ t.height ∧ t.height ≤ 8)) ∧
    write_cell ⟨9, Prefab.None⟩ = [40, 57, 41] ∧
    write_cell ⟨10, Prefab.None⟩ = [40, 49, 48, 41] ∧
    write_cell ⟨-1, Prefab.None⟩ = [40, 45, 49, 41] := by
  refine ⟨?_, by decide, by decide, by decide⟩
  intro t
  constructor
  · rintro ⟨d, hd, _, _⟩
    by_contra hout
    have hb : ¬(0 ≤ t.height ∧ t.height < 9) := by omega
    have hw : write_cell t = 40 :: (intLiteral t.height ++ [41]) := by
      unfold write_cell
      rw [if_neg hb]
    rw [hw] at hd
    have hlen := congrArg List.length hd
    simp only [List.length_cons, List.length_append,
      List.length_singleton] at hlen
    omega
  · intro hin
    have hb : 0 ≤ t.height ∧ t.height < 9 := by omega
    have hw : write_cell t = [(t.height + 48).toNat] := by
      unfold write_cell
      rw [if_pos hb]
    exact ⟨(t.height + 48).toNat, hw, by omega, by omega⟩

/-- C2 witness: the bare-digit equivalence applied at elevation 0. -/
theorem C2_witness :
    ∃ d, write_cell ⟨0, Prefab.None⟩ = [d] ∧ 48 ≤ d ∧ d ≤ 57 :=
  (C2_bare_digit_boundary.1 ⟨0, Prefab.None⟩).mpr (by decide)

/-! The degenerate line selection (claim C3). -/

/-- C3: selecting the line from a point to itself is not special-cased;
both deltas are 0, the Euclid loop returns gcd 0, and the step division
`dx / gcd` divides by zero, a panic in Rust — `none` here.  The claim's
length-1 segment is never produced. -/
theorem C3_degenerate_point_panics :
    draw_line (3, 3) (3, 3) = none ∧
    CyberGrindPattern.line CyberGrindPattern.new (3, 3) (3, 3) = none := by
  constructor
  · rfl
  · rfl

/-! The gcd-based cardinality of line selection (claim C4). -/

theorem gcd_loop_eq_gcd (b : Nat) : ∀ (fuel a : Nat), b < fuel →
    gcd_loop fuel a b = Nat.gcd a b := by
  induction b using Nat.strong_induction_on with
  | _ b ih =>
    intro fuel a hfb
    match fuel with
    | f + 1 =>
      by_cases hb : b = 0
      · subst hb
        simp [gcd_loop]
      · simp only [gcd_loop, if_neg hb]
        rw [ih (a % b) (Nat.mod_lt _ (Nat.pos_of_ne_zero hb)) f b
          (by have := Nat.mod_lt a (Nat.pos_of_ne_zero hb); omega)]
        rw [Nat.gcd_comm b (a % b), ← Nat.gcd_rec b a, Nat.gcd_comm b a]

theorem greatest_common_divisor_eq (a b : Nat) :
    greatest_common_divisor a b = Nat.gcd a b :=
  gcd_loop_eq_gcd b (b + 1) a (Nat.lt_succ_self b)

/-- C4: for in-range coordinates with nonnegative deltas and distinct
endpoints, the selection has exactly gcd+1 offsets, the i-th being the
row-major offset of the i-th reduced-step point; the diagonal to
(15,15) has 16 offsets, the vertical run to (0,7) has 8, and the
gcd-free pair (3,1) keeps only its 2 endpoints. -/
theorem C4_line_cardinality :
    (∀ x1 y1 x2 y2 : Nat, x1 < 16 → y1 < 16 → x2 < 16 → y2 < 16 →
      x1 ≤ x2 → y1 ≤ y2 → ¬(x1 = x2 ∧ y1 = y2) →
      ∃ buf, draw_line (x1, y1) (x2, y2) =
          some (buf, Nat.gcd (x2 - x1) (y2 - y1) + 1) ∧
        ∀ i : Nat, i < Nat.gcd (x2 - x1) (y2 - y1) + 1 →
          buf.get? i = some
            (x1 + i * ((x2 - x1) / Nat.gcd (x2 - x1) (y2 - y1))
              + (y1 + i * ((y2 - y1) / Nat.gcd (x2 - x1) (y2 - y1))) * 16)) ∧
    (draw_line (0, 0) (15, 15)).map Prod.snd = some 16 ∧
    (draw_line (0, 0) (0, 7)).map Prod.snd = some 8 ∧
    (draw_line (0, 0) (3, 1)).map Prod.snd = some 2 := by
  refine ⟨?_, by decide, by decide, by decide⟩
  intro x1 y1 x2 y2 hx1 hy1 hx2 hy2 hle1 hle2 hne
  have hg0 : Nat.gcd (x2 - x1) (y2 - y1) ≠ 0 := by
    rw [ne_eq, Nat.gcd_eq_zero_iff]
    omega
  have hgdx : Nat.gcd (x2 - x1) (y2 - y1) ∣ (x2 - x1) :=
    Nat.gcd_dvd_left _ _
  have hgdy : Nat.gcd (x2 - x1) (y2 - y1) ∣ (y2 - y1) :=
    Nat.gcd_dvd_right _ _
  have hg15 : Nat.gcd (x2 - x1) (y2 - y1) ≤ 15 := by
    by_cases hdx : x2 - x1 = 0
    · rw [hdx, Nat.gcd_comm, Nat.gcd_zero_right]
      omega
    · have := Nat.le_of_dvd (Nat.pos_of_ne_zero hdx) hgdx
      omega
  simp only [draw_line, greatest_common_divisor_eq]
  rw [if_neg hg0]
  refine ⟨_, rfl, ?_⟩
  intro i hi
  have hi16 : i < 16 := by omega
  rw [List.get?_map, List.get?_range hi16]
  simp only [Option.map_some', if_pos hi]
  have hgx : Nat.gcd (x2 - x1) (y2 - y1)
      * ((x2 - x1) / Nat.gcd (x2 - x1) (y2 - y1)) = x2 - x1 :=
    Nat.mul_div_cancel' hgdx
  have hgy : Nat.gcd (x2 - x1) (y2 - y1)
      * ((y2 - y1) / Nat.gcd (x2 - x1) (y2 - y1)) = y2 - y1 :=
    Nat.mul_div_cancel' hgdy
  have hxb : i * ((x2 - x1) / Nat.gcd (x2 - x1) (y2 - y1)) ≤ x2 - x1 := by
    calc i * ((x2 - x1) / Nat.gcd (x2 - x1) (y2 - y1))
      ≤ Nat.gcd (x2 - x1) (y2 - y1)
          * ((x2 - x1) / Nat.gcd (x2 - x1) (y2 - y1)) :=
        Nat.mul_le_mul_right _ (by omega)
    _ = x2 - x1 := hgx
  have hyb : i * ((y2 - y1) / Nat.gcd (x2 - x1) (y2 - y1)) ≤ y2 - y1 := by
    calc i * ((y2 - y1) / Nat.gcd (x2 - x1) (y2 - y1))
      ≤ Nat.gcd (x2 - x1) (y2 - y1)
          * ((y2 - y1) / Nat.gcd (x2 - x1) (y2 - y1)) :=
        Nat.mul_le_mul_right _ (by omega)
    _ = y2 - y1 := hgy
  rw [Nat.mod_eq_of_lt (by omega)]

/-- C4 witness: the selection along the main diagonal. -/
theorem C4_witness :
    ∃ buf, draw_line (0, 0) (15, 15) =
        some (buf, Nat.gcd (15 - 0) (15 - 0) + 1) ∧
      ∀ i : Nat, i < Nat.gcd (15 - 0) (15 - 0) + 1 →
        buf.get? i = some
          (0 + i * ((15 - 0) / Nat.gcd (15 - 0) (15 - 0))
            + (0 + i * ((15 - 0) / Nat.gcd (15 - 0) (15 - 0))) * 16) :=
  C4_line_cardinality.1 0 0 15 15 (by decide) (by decide) (by decide)
    (by decide) (by decide) (by decide) (by decide)

/-! Position-indexed access into a Line (claim C9). -/

set_option maxRecDepth 40000 in
/-- C9: the Index implementation reads `self.buf[self.idx]` instead of
`self.buf[index]`, so on a freshly built line over the diagonal to
(2,2) the access at position 1 returns the tile at offset 0 (the start
point) rather than the tile at the segment's second offset 17, whose
tile differs. -/
theorem C9_index_ignores_position :
    CyberGrindPattern.line probePattern (0, 0) (2, 2) =
      some ⟨[0, 17, 34, 0, 0, 0, 0, 0, 0, 0, 0, 0, 0, 0, 0, 0], 3, 0⟩ ∧
    Line.index probePattern
      ⟨[0, 17, 34, 0, 0, 0, 0, 0, 0, 0, 0, 0, 0, 0, 0, 0], 3, 0⟩ 1 =
      some ⟨0, Prefab.None⟩ ∧
    probePattern.tiles.get? 17 = some ⟨5, Prefab.None⟩ ∧
    (⟨0, Prefab.None⟩ : Tile) ≠ ⟨5, Prefab.None⟩ := by
  refine ⟨by decide, by decide, by decide, by decide⟩

/-! The elevation gate on every Tile operation (claim C7). -/

theorem check_height_iff (h : Int) :
    check_height h = true ↔ (-50 ≤ h ∧ h ≤ 50) := by
  unfold check_height
  simp only [Bool.and_eq_true, decide_eq_true_eq]
  omega

theorem gate_none_iff (h : Int) (t : Tile) :
    (if check_height h then some t else none) = none ↔
      ¬(-50 ≤ h ∧ h ≤ 50) := by
  rw [← check_height_iff]
  by_cases hch : check_height h = true
  · simp [hch]
  · simp [hch]

/-- C7: every construction or elevation mutation of a Tile panics
exactly when the resulting elevation leaves [-50, 50]; for the add and
subtract operators the i8 sum wraps first, but for a valid tile and an
i8 delta the wrapped value is in range exactly when the true sum is.
Elevations 50 and -50 are accepted; 51 and -51 are rejected. -/
theorem C7_elevation_gate :
    (∀ h p, Tile.new h p = none ↔ ¬(-50 ≤ h ∧ h ≤ 50)) ∧
    (∀ h, Tile.with_height h = none ↔ ¬(-50 ≤ h ∧ h ≤ 50)) ∧
    (∀ t h, Tile.set_height t h = none ↔ ¬(-50 ≤ h ∧ h ≤ 50)) ∧
    (∀ h, Tile.fromHeight h = none ↔ ¬(-50 ≤ h ∧ h ≤ 50)) ∧
    (∀ t d, check_height t.height = true → -128 ≤ d → d ≤ 127 →
      (Tile.addHeight t d = none ↔
        ¬(-50 ≤ t.height + d ∧ t.height + d ≤ 50))) ∧
    (∀ t d, check_height t.height = true → -128 ≤ d → d ≤ 127 →
      (Tile.subHeight t d = none ↔
        ¬(-50 ≤ t.height - d ∧ t.height - d ≤ 50))) ∧
    (Tile.with_height 50).isSome = true ∧
    (Tile.with_height (-50)).isSome = true ∧
    Tile.with_height 51 = none ∧
    Tile.with_height (-51) = none := by
  refine ⟨?_, ?_, ?_, ?_, ?_, ?_, by decide, by decide, by decide, by decide⟩
  · intro h p
    exact gate_none_iff h ⟨h, p⟩
  · intro h
    exact gate_none_iff h ⟨h, Prefab.None⟩
  · intro t h
    exact gate_none_iff h ⟨h, t.prefab⟩
  · intro h
    exact gate_none_iff h ⟨h, Prefab.None⟩
  · intro t d hv h1 h2
    rw [check_height_iff] at hv
    simp only [Tile.addHeight]
    rw [gate_none_iff]
    unfold wrap8
    omega
  · intro t d hv h1 h2
    rw [check_height_iff] at hv
    simp only [Tile.subHeight]
    rw [gate_none_iff]
    unfold wrap8
    omega

/-- C7 witness: the gate applied at the boundary values. -/
theorem C7_witness :
    (Tile.addHeight ⟨50, Prefab.None⟩ 1 = none) ∧
    (Tile.addHeight ⟨50, Prefab.None⟩ 0 ≠ none) ∧
    (Tile.new 51 Prefab.None = none) ∧
    (Tile.new (-50) Prefab.None ≠ none) := by
  refine ⟨?_, ?_, ?_, ?_⟩
  · exact (C7_elevation_gate.2.2.2.2.1 ⟨50, Prefab.None⟩ 1 (by decide)
      (by decide) (by decide)).mpr (by decide)
  · intro hnone
    have := (C7_elevation_gate.2.2.2.2.1 ⟨50, Prefab.None⟩ 0 (by decide)
      (by decide) (by decide)).mp hnone
    exact this (by decide)
  · exact (C7_elevation_gate.1 51 Prefab.None).mpr (by decide)
  · intro hnone
    have := (C7_elevation_gate.1 (-50) Prefab.None).mp hnone
    exact this (by decide)

/-! The serialized size bound (claim C8). -/

theorem natDigits_length_le (n : Nat) (h : n ≤ 99) :
    (natDigits n).length ≤ 2 := by
  unfold natDigits
  by_cases h1 : n < 10
  · rw [if_pos h1]
    simp
  · rw [if_neg h1, if_pos (by omega)]
    simp

theorem intLiteral_length_le (h : Int) (h1 : -50 ≤ h) (h2 : h ≤ 50) :
    (intLiteral h).length ≤ 3 := by
  unfold intLiteral
  by_cases hn : h < 0
  · rw [if_pos hn]
    have := natDigits_length_le (-h).toNat (by omega)
    simp only [List.length_cons]
    omega
  · rw [if_neg hn]
    have := natDigits_length_le h.toNat (by omega)
    omega

theorem write_cell_length_le (t : Tile)
    (hv : check_height t.height = true) : (write_cell t).length ≤ 5 := by
  rw [check_height_iff] at hv
  unfold write_cell
  by_cases hb : 0 ≤ t.height ∧ t.height < 9
  · rw [if_pos hb]
    simp
  · rw [if_neg hb]
    have := intLiteral_length_le t.height hv.1 hv.2
    simp only [List.length_cons, List.length_append, List.length_singleton,
      List.length_nil]
    omega

theorem flatMap_write_cell_le (ts : List Tile)
    (hval : ∀ t ∈ ts, check_height t.height = true) :
    (ts.flatMap write_cell).length ≤ 5 * ts.length := by
  induction ts with
  | nil => simp
  | cons t ts ih =>
    simp only [List.flatMap_cons, List.length_append, List.length_cons]
    have h1 := write_cell_length_le t (hval t (by simp))
    have h2 := ih (fun x hx => hval x (by simp [hx]))
    omega

theorem writeHeightRows_length_le (n : Nat) : ∀ ts : List Tile,
    (∀ t ∈ ts, check_height t.height = true) →
    (writeHeightRows n ts).length ≤ n * 81 := by
  induction n with
  | zero =>
    intro ts _
    simp [writeHeightRows]
  | succ n ih =>
    intro ts hval
    simp only [writeHeightRows, List.length_append, List.length_cons,
      List.length_nil, List.length_singleton]
    have h1 := flatMap_write_cell_le (ts.take 16)
      (fun x hx => hval x (List.take_subset 16 ts hx))
    have h2 := ih (ts.drop 16) (fun x hx => hval x (List.drop_subset 16 ts hx))
    have h3 : (ts.take 16).length ≤ 16 := by
      rw [List.length_take]
      omega
    omega

theorem writePrefabRows_length_le (n : Nat) : ∀ ts : List Tile,
    (writePrefabRows n ts).length ≤ n * 17 := by
  induction n with
  | zero =>
    intro ts
    simp [writePrefabRows]
  | succ n ih =>
    intro ts
    simp only [writePrefabRows, List.length_append, List.length_cons,
      List.length_nil, List.length_singleton, List.length_map]
    have h2 := ih (ts.drop 16)
    have h3 : (ts.take 16).length ≤ 16 := by
      rw [List.length_take]
      omega
    omega

set_option maxRecDepth 40000 in
/-- C8: for every grid of 256 in-range tiles the serialized output is
at most 1569 bytes, the size of the writer's fixed buffer, so the
sequential stores never leave the buffer; the all-(-50) layout, whose
every height cell costs five bytes, attains exactly 1569. -/
theorem C8_write_length_bound :
    (∀ p : CyberGrindPattern, p.tiles.length = 256 →
      (∀ t ∈ p.tiles, check_height t.height = true) →
      (write p).length ≤ 1569) ∧
    (write maxPattern).length = 1569 := by
  constructor
  · intro p hlen hval
    unfold write
    simp only [List.length_append, List.length_cons, List.length_nil,
      List.length_singleton]
    have h1 := writeHeightRows_length_le 16 p.tiles hval
    have h2 := writePrefabRows_length_le 16 p.tiles
    omega
  · decide

set_option maxRecDepth 40000 in
/-- C8 witness: the bound applied to the maximal layout. -/
theorem C8_witness : (write maxPattern).length ≤ 1569 :=
  C8_write_length_bound.1 maxPattern (by decide) (by decide)

/-! Error positions are 1-based (claim C5). -/

theorem loop_err_pos (bytes : List Nat) : ∀ (isNeg : Bool) (height : Int)
    (line c : Nat) (e : ParseError), 1 ≤ line → 1 ≤ c →
    parseParensLoop bytes isNeg height line c = some (Except.error e) →
    1 ≤ e.line ∧ 1 ≤ e.column := by
  induction bytes with
  | nil =>
    intro isNeg height line c e _ _ hp
    exact absurd hp (by simp [parseParensLoop])
  | cons ch rest ih =>
    intro isNeg height line c e hl hc hp
    simp only [parseParensLoop] at hp
    split_ifs at hp
    all_goals
      try simp only [Option.some.injEq, Except.error.injEq] at hp
    all_goals
      first
      | exact absurd hp (by simp)
      | (subst hp; exact ⟨hl, hc⟩)
      | exact ih _ _ _ _ _ hl (by omega) hp

theorem parse_parentheses_err_pos (bytes : List Nat) (line c : Nat)
    (e : ParseError) (hl : 1 ≤ line) :
    parse_parentheses bytes line c = some (Except.error e) →
    1 ≤ e.line ∧ 1 ≤ e.column := by
  intro hp
  match bytes with
  | [] => exact absurd hp (by simp [parse_parentheses])
  | _ :: rest =>
    exact loop_err_pos rest false 0 line (c + 1) e hl (by omega) hp

theorem parseCell_err_pos (bytes : List Nat) (line c : Nat)
    (e : ParseError) (hl : 1 ≤ line) (hc : 1 ≤ c) :
    parseCell bytes line c = some (Except.error e) →
    1 ≤ e.line ∧ 1 ≤ e.column := by
  intro hp
  match bytes with
  | [] => exact absurd hp (by simp [parseCell])
  | ch :: rest =>
    simp only [parseCell] at hp
    split_ifs at hp
    · exact parse_parentheses_err_pos (ch :: rest) line c e hl hp
    · exact absurd hp (by simp)
    · simp only [Option.some.injEq, Except.error.injEq] at hp
      subst hp
      exact ⟨hl, hc⟩

theorem parseRowCells_err_pos (n : Nat) : ∀ (bytes : List Nat)
    (line c : Nat) (e : ParseError), 1 ≤ line → 1 ≤ c →
    parseRowCells n bytes line c = some (Except.error e) →
    1 ≤ e.line ∧ 1 ≤ e.column := by
  induction n with
  | zero =>
    intro bytes line c e _ _ hp
    exact absurd hp (by simp [parseRowCells])
  | succ n ih =>
    intro bytes line c e hl hc hp
    simp only [parseRowCells] at hp
    cases hcell : parseCell bytes line c with
    | none =>
      rw [hcell] at hp
      exact absurd hp (by simp)
    | some r =>
      rw [hcell] at hp
      cases r with
      | error e2 =>
        simp only [Option.some.injEq, Except.error.injEq] at hp
        subst hp
        exact parseCell_err_pos bytes line c e2 hl hc hcell
      | ok v =>
        obtain ⟨h, c2, rest⟩ := v
        simp only at hp
        split_ifs at hp
        · cases hrec : parseRowCells n rest line (c2 + 1) with
          | none =>
            rw [hrec] at hp
            exact absurd hp (by simp)
          | some r2 =>
            rw [hrec] at hp
            cases r2 with
            | error e2 =>
              simp only [Option.some.injEq, Except.error.injEq] at hp
              subst hp
              exact ih rest line (c2 + 1) e2 hl (by omega) hrec
            | ok v2 =>
              obtain ⟨hs, c3, rest2⟩ := v2
              exact absurd hp (by simp)

theorem parseRowCells_ok_col (n : Nat) : ∀ (bytes : List Nat)
    (line c : Nat) (hs : List Int) (c2 : Nat) (rest : List Nat),
    1 ≤ c → parseRowCells n bytes line c = some (Except.ok (hs, c2, rest)) →
    1 ≤ c2 := by
  induction n with
  | zero =>
    intro bytes line c hs c2 rest hc hp
    simp only [parseRowCells, Option.some.injEq, Except.ok.injEq,
      Prod.mk.injEq] at hp
    omega
  | succ n ih =>
    intro bytes line c hs c2 rest hc hp
    simp only [parseRowCells] at hp
    cases hcell : parseCell bytes line c with
    | none =>
      rw [hcell] at hp
      exact absurd hp (by simp)
    | some r =>
      rw [hcell] at hp
      cases r with
      | error e2 => exact absurd hp (by simp)
      | ok v =>
        obtain ⟨h, c3, rest1⟩ := v
        simp only at hp
        split_ifs at hp
        · cases hrec : parseRowCells n rest1 line (c3 + 1) with
          | none =>
            rw [hrec] at hp
            exact absurd hp (by simp)
          | some r2 =>
            rw [hrec] at hp
            cases r2 with
            | error e2 => exact absurd hp (by simp)
            | ok v2 =>
              obtain ⟨hs2, c4, rest2⟩ := v2
              simp only [Option.some.injEq, Except.ok.injEq,
                Prod.mk.injEq] at hp
              obtain ⟨-, hc4, -⟩ := hp
              subst hc4
              exact ih rest1 line (c3 + 1) hs2 c4 rest2 (by omega) hrec

theorem parseHeightRows_err_pos (n : Nat) : ∀ (bytes : List Nat)
    (line : Nat) (e : ParseError), 1 ≤ line →
    parseHeightRows n bytes line = some (Except.error e) →
    1 ≤ e.line ∧ 1 ≤ e.column := by
  induction n with
  | zero =>
    intro bytes line e _ hp
    exact absurd hp (by simp [parseHeightRows])
  | succ n ih =>
    intro bytes line e hl hp
    simp only [parseHeightRows] at hp
    cases hrow : parseRowCells 16 bytes line 1 with
    | none =>
      rw [hrow] at hp
      exact absurd hp (by simp)
    | some r =>
      rw [hrow] at hp
      cases r with
      | error e2 =>
        simp only [Option.some.injEq, Except.error.injEq] at hp
        subst hp
        exact parseRowCells_err_pos 16 bytes line 1 e2 hl (by omega) hrow
      | ok v =>
        obtain ⟨hs, col, rest⟩ := v
        match rest with
        | [] => exact absurd hp (by simp)
        | b :: rest2 =>
          simp only [check_for_newline] at hp
          split_ifs at hp
          · simp only [Option.some.injEq, Except.error.injEq] at hp
            subst hp
            refine ⟨hl, ?_⟩
            exact parseRowCells_ok_col 16 bytes line 1 hs col (b :: rest2)
              (by omega) hrow
          · cases hrec : parseHeightRows n rest2 (line + 1) with
            | none =>
              rw [hrec] at hp
              exact absurd hp (by simp)
            | some r2 =>
              rw [hrec] at hp
              cases r2 with
              | error e2 =>
                simp only [Option.some.injEq, Except.error.injEq] at hp
                subst hp
                exact ih rest2 (line + 1) e2 (by omega) hrec
              | ok v2 =>
                obtain ⟨rows, l2, rest3⟩ := v2
                exact absurd hp (by simp)

theorem parsePrefabCells_err_pos (n : Nat) : ∀ (bytes : List Nat)
    (line c : Nat) (e : ParseError), 1 ≤ line → 1 ≤ c →
    parsePrefabCells n bytes line c = some (Except.error e) →
    1 ≤ e.line ∧ 1 ≤ e.column := by
  induction n with
  | zero =>
    intro bytes line c e _ _ hp
    exact absurd hp (by simp [parsePrefabCells])
  | succ n ih =>
    intro bytes line c e hl hc hp
    match bytes with
    | [] => exact absurd hp (by simp [parsePrefabCells])
    | ch :: rest =>
      simp only [parsePrefabCells] at hp
      cases htry : prefab_try_from ch with
      | error kind =>
        rw [htry] at hp
        simp only [Option.some.injEq, Except.error.injEq] at hp
        subst hp
        exact ⟨hl, hc⟩
      | ok p =>
        rw [htry] at hp
        cases hrec : parsePrefabCells n rest line (c + 1) with
        | none =>
          rw [hrec] at hp
          exact absurd hp (by simp)
        | some r2 =>
          rw [hrec] at hp
          cases r2 with
          | error e2 =>
            simp only [Option.some.injEq, Except.error.injEq] at hp
            subst hp
            exact ih rest line (c + 1) e2 hl (by omega) hrec
          | ok v2 =>
            obtain ⟨ps, rest2⟩ := v2
            exact absurd hp (by simp)

theorem parsePrefabRows_err_pos (n : Nat) : ∀ (bytes : List Nat)
    (line : Nat) (e : ParseError), 1 ≤ line →
    parsePrefabRows n bytes line = some (Except.error e) →
    1 ≤ e.line ∧ 1 ≤ e.column := by
  induction n with
  | zero =>
    intro bytes line e _ hp
    exact absurd hp (by simp [parsePrefabRows])
  | succ n ih =>
    intro bytes line e hl hp
    simp only [parsePrefabRows] at hp
    cases hrow : parsePrefabCells 16 bytes line 1 with
    | none =>
      rw [hrow] at hp
      exact absurd hp (by simp)
    | some r =>
      rw [hrow] at hp
      cases r with
      | error e2 =>
        simp only [Option.some.injEq, Except.error.injEq] at hp
        subst hp
        exact parsePrefabCells_err_pos 16 bytes line 1 e2 hl (by omega) hrow
      | ok v =>
        obtain ⟨ps, rest⟩ := v
        match rest with
        | [] => exact absurd hp (by simp)
        | b :: rest2 =>
          simp only [check_for_newline] at hp
          split_ifs at hp
          · simp only [Option.some.injEq, Except.error.injEq] at hp
            subst hp
            refine ⟨hl, ?_⟩
            show (1 : Nat) ≤ 17
            omega
          · cases hrec : parsePrefabRows n rest2 (line + 1) with
            | none =>
              rw [hrec] at hp
              exact absurd hp (by simp)
            | some r2 =>
              rw [hrec] at hp
              cases r2 with
              | error e2 =>
                simp only [Option.some.injEq, Except.error.injEq] at hp
                subst hp
                exact ih rest2 (line + 1) e2 (by omega) hrec
              | ok v2 =>
                obtain ⟨rows, rest3⟩ := v2
                exact absurd hp (by simp)

theorem parseHeightRows_line_lb (n : Nat) : ∀ (bytes : List Nat)
    (line : Nat) (rows : List (List Int)) (l2 : Nat) (rest : List Nat),
    parseHeightRows n bytes line = some (Except.ok (rows, l2, rest)) →
    line ≤ l2 := by
  induction n with
  | zero =>
    intro bytes line rows l2 rest hp
    simp only [parseHeightRows, Option.some.injEq, Except.ok.injEq,
      Prod.mk.injEq] at hp
    omega
  | succ n ih =>
    intro bytes line rows l2 rest hp
    simp only [parseHeightRows] at hp
    cases hrow : parseRowCells 16 bytes line 1 with
    | none =>
      rw [hrow] at hp
      exact absurd hp (by simp)
    | some r =>
      rw [hrow] at hp
      cases r with
      | error e2 => exact absurd hp (by simp)
      | ok v =>
        obtain ⟨hs, col, rest1⟩ := v
        match rest1 with
        | [] => exact absurd hp (by simp)
        | b :: rest2 =>
          simp only [check_for_newline] at hp
          split_ifs at hp
          · exact absurd hp (by simp)
          · cases hrec : parseHeightRows n rest2 (line + 1) with
            | none =>
              rw [hrec] at hp
              exact absurd hp (by simp)
            | some r2 =>
              rw [hrec] at hp
              cases r2 with
              | error e2 => exact absurd hp (by simp)
              | ok v2 =>
                obtain ⟨rows2, l3, rest3⟩ := v2
                simp only [Option.some.injEq, Except.ok.injEq,
                  Prod.mk.injEq] at hp
                obtain ⟨-, hl3, -⟩ := hp
                have := ih rest2 (line + 1) rows2 l3 rest3 hrec
                omega

theorem parse_err_pos (bytes : List Nat) (e : ParseError) :
    parse bytes = some (Except.error e) →
    1 ≤ e.line ∧ 1 ≤ e.column := by
  intro hp
  simp only [parse] at hp
  cases hhr : parseHeightRows 16 bytes 1 with
  | none =>
    rw [hhr] at hp
    exact absurd hp (by simp)
  | some r =>
    rw [hhr] at hp
    cases r with
    | error e2 =>
      simp only [Option.some.injEq, Except.error.injEq] at hp
      subst hp
      exact parseHeightRows_err_pos 16 bytes 1 e2 (by omega) hhr
    | ok v =>
      obtain ⟨hrows, line2, rest⟩ := v
      match rest with
      | [] => exact absurd hp (by simp)
      | b :: rest2 =>
        simp only [check_for_newline] at hp
        split_ifs at hp
        · simp only [Option.some.injEq, Except.error.injEq] at hp
          subst hp
          have hlb := parseHeightRows_line_lb 16 bytes 1 hrows line2
            (b :: rest2) hhr
          refine ⟨?_, ?_⟩
          · show 1 ≤ line2
            omega
          · show (1 : Nat) ≤ 1
            omega
        · cases hpr : parsePrefabRows 16 rest2 (line2 + 1) with
          | none =>
            rw [hpr] at hp
            exact absurd hp (by simp)
          | some r2 =>
            rw [hpr] at hp
            cases r2 with
            | error e2 =>
              simp only [Option.some.injEq, Except.error.injEq] at hp
              subst hp
              exact parsePrefabRows_err_pos 16 rest2 (line2 + 1) e2
                (by omega) hpr
            | ok v2 =>
              obtain ⟨prows, rest3⟩ := v2
              exact absurd hp (by simp)

/-- C5 (amended): parse is not total — on truncated input it reads
past the end of the buffer, a fatal index panic (`none` here, witnessed
by the empty input in the counterexample) — but whenever it produces a
result, that result is either a parsed grid or a recoverable
ParseError whose line and column are both 1-based (at least 1) and
which carries the offending byte. -/
theorem C5_parse_result_shape (bytes : List Nat)
    (r : Except ParseError CyberGrindPattern) (hp : parse bytes = some r) :
    (∃ g, r = Except.ok g) ∨
    (∃ e, r = Except.error e ∧ 1 ≤ e.line ∧ 1 ≤ e.column) := by
  cases r with
  | ok g => exact Or.inl ⟨g, rfl⟩
  | error e => exact Or.inr ⟨e, rfl, parse_err_pos bytes e hp⟩

/-- C5 counterexample: on the empty input the very first byte read is
out of bounds, so parse fails fatally instead of returning a
recoverable error. -/
theorem C5_counterexample : parse [] = none := rfl

/-- C5 witness: the shape theorem applied to a one-byte invalid
input. -/
theorem C5_witness :
    (∃ g, (Except.error ⟨1, 1, 122, ParseErrorType.InvalidHeightChar⟩ :
        Except ParseError CyberGrindPattern) = Except.ok g) ∨
    (∃ e, (Except.error ⟨1, 1, 122, ParseErrorType.InvalidHeightChar⟩ :
          Except ParseError CyberGrindPattern) = Except.error e ∧
      1 ≤ e.line ∧ 1 ≤ e.column) :=
  C5_parse_result_shape [122]
    (Except.error ⟨1, 1, 122, ParseErrorType.InvalidHeightChar⟩) (by decide)

/-! The exact position of an invalid height byte (claim C6). -/

/-- Parsing a run of bare digit cells consumes one byte per cell and
advances the column by one per cell. -/
theorem parseRowCells_digits (ds : List Nat) : ∀ (n : Nat)
    (rest : List Nat) (line c : Nat), ds.length = n →
    (∀ d ∈ ds, 48 ≤ d ∧ d ≤ 57) →
    parseRowCells n (ds ++ rest) line c =
      some (Except.ok (ds.map (fun (d : Nat) => ((d : Int) - 48)),
        c + n, rest)) := by
  induction ds with
  | nil =>
    intro n rest line c hlen _
    subst hlen
    rfl
  | cons d ds ih =>
    intro n rest line c hlen hd
    subst hlen
    have hdd := hd d (by simp)
    have hcell : parseCell (d :: (ds ++ rest)) line c =
        some (Except.ok (((d : Int) - 48), c, ds ++ rest)) := by
      simp only [parseCell]
      rw [if_neg (by omega), if_neg (not_not_intro ⟨hdd.1, hdd.2⟩)]
    have hch : check_height ((d : Int) - 48) = true :=
      (check_height_iff _).mpr (by omega)
    simp only [List.cons_append, List.length_cons, parseRowCells, hcell,
      hch, if_pos]
    rw [ih ds.length rest line (c + 1) rfl (fun x hx => hd x (by simp [hx]))]
    have hcol : c + 1 + ds.length = c + (ds.length + 1) := by omega
    simp [hcol]

/-- A run of bare digit cells followed by a byte that is neither a
parenthesis nor a digit fails with InvalidHeightChar at the column
just past the digits. -/
theorem parseRowCells_digits_invalid (ds : List Nat) : ∀ (n : Nat)
    (rest : List Nat) (line c b : Nat), ds.length + 1 ≤ n →
    (∀ d ∈ ds, 48 ≤ d ∧ d ≤ 57) → b ≠ 40 → ¬(48 ≤ b ∧ b ≤ 57) →
    parseRowCells n (ds ++ b :: rest) line c =
      some (Except.error
        ⟨line, c + ds.length, b, ParseErrorType.InvalidHeightChar⟩) := by
  induction ds with
  | nil =>
    intro n rest line c b hn _ hb1 hb2
    obtain ⟨m, rfl⟩ : ∃ m, n = m + 1 := ⟨n - 1, by omega⟩
    have hcell : parseCell (b :: rest) line c =
        some (Except.error
          ⟨line, c, b, ParseErrorType.InvalidHeightChar⟩) := by
      simp only [parseCell]
      rw [if_neg hb1, if_pos hb2]
    simp only [List.nil_append, List.length_nil, parseRowCells, hcell]
    rfl
  | cons d ds ih =>
    intro n rest line c b hn hd hb1 hb2
    obtain ⟨m, rfl⟩ : ∃ m, n = m + 1 := ⟨n - 1, by omega⟩
    have hdd := hd d (by simp)
    have hcell : parseCell (d :: (ds ++ b :: rest)) line c =
        some (Except.ok (((d : Int) - 48), c, ds ++ b :: rest)) := by
      simp only [parseCell]
      rw [if_neg (by omega), if_neg (not_not_intro ⟨hdd.1, hdd.2⟩)]
    have hch : check_height ((d : Int) - 48) = true :=
      (check_height_iff _).mpr (by omega)
    simp only [List.cons_append, List.length_cons, parseRowCells, hcell,
      hch, if_pos]
    rw [ih m rest line (c + 1) b (by simp at hn ⊢; omega)
      (fun x hx => hd x (by simp [hx])) hb1 hb2]
    simp only [Option.some.injEq, Except.error.injEq]
    congr 1
    omega

theorem parseHeightRows_step_err (n : Nat) (bytes : List Nat)
    (line : Nat) (e : ParseError)
    (h : parseRowCells 16 bytes line 1 = some (Except.error e)) :
    parseHeightRows (n + 1) bytes line = some (Except.error e) := by
  simp only [parseHeightRows, h]

theorem parseHeightRows_step_ok_err (n : Nat) (bytes : List Nat)
    (line : Nat) (hs : List Int) (col : Nat) (rest2 : List Nat)
    (e : ParseError)
    (h1 : parseRowCells 16 bytes line 1 =
      some (Except.ok (hs, col, 10 :: rest2)))
    (h2 : parseHeightRows n rest2 (line + 1) = some (Except.error e)) :
    parseHeightRows (n + 1) bytes line = some (Except.error e) := by
  simp only [parseHeightRows, h1, check_for_newline]
  simp [h2]

/-- C6: when section 1 is well formed through the first four cells of
its third row (all preceding cells bare digits) and the fifth cell of
that row starts with the byte "z" (122), parse reports exactly line 3,
column 5, char "z", kind InvalidHeightChar — both coordinates
1-based. -/
theorem C6_invalid_char_position (r1 r2 c4 junk : List Nat)
    (hr1 : r1.length = 16) (hr2 : r2.length = 16) (hc4 : c4.length = 4)
    (hd1 : ∀ d ∈ r1, 48 ≤ d ∧ d ≤ 57) (hd2 : ∀ d ∈ r2, 48 ≤ d ∧ d ≤ 57)
    (hd3 : ∀ d ∈ c4, 48 ≤ d ∧ d ≤ 57) :
    parse (r1 ++ 10 :: (r2 ++ 10 :: (c4 ++ 122 :: junk))) =
      some (Except.error ⟨3, 5, 122, ParseErrorType.InvalidHeightChar⟩) := by
  have h3 : parseRowCells 16 (c4 ++ 122 :: junk) 3 1 =
      some (Except.error ⟨3, 5, 122, ParseErrorType.InvalidHeightChar⟩) := by
    have h := parseRowCells_digits_invalid c4 16 junk 3 1 122 (by omega) hd3
      (by omega) (by omega)
    rw [hc4] at h
    norm_num at h
    exact h
  have h2 := parseRowCells_digits r2 16 (10 :: (c4 ++ 122 :: junk)) 2 1
    hr2 hd2
  have h1 := parseRowCells_digits r1 16
    (10 :: (r2 ++ 10 :: (c4 ++ 122 :: junk))) 1 1 hr1 hd1
  have hrow3 : parseHeightRows 14 (c4 ++ 122 :: junk) 3 =
      some (Except.error ⟨3, 5, 122, ParseErrorType.InvalidHeightChar⟩) :=
    parseHeightRows_step_err 13 (c4 ++ 122 :: junk) 3 _ h3
  have hrow2 : parseHeightRows 15 (r2 ++ 10 :: (c4 ++ 122 :: junk)) 2 =
      some (Except.error ⟨3, 5, 122, ParseErrorType.InvalidHeightChar⟩) :=
    parseHeightRows_step_ok_err 14 _ 2 _ _ _ _ h2 hrow3
  have hrow1 : parseHeightRows 16
      (r1 ++ 10 :: (r2 ++ 10 :: (c4 ++ 122 :: junk))) 1 =
      some (Except.error ⟨3, 5, 122, ParseErrorType.InvalidHeightChar⟩) :=
    parseHeightRows_step_ok_err 15 _ 1 _ _ _ _ h1 hrow2
  simp only [parse, hrow1]

/-- C6 witness: the position theorem on a concrete input, rows of
zeros before the offending byte. -/
theorem C6_witness :
    parse (List.replicate 16 48 ++ 10 :: (List.replicate 16 48 ++ 10 ::
        ([49, 50, 51, 52] ++ 122 :: []))) =
      some (Except.error ⟨3, 5, 122, ParseErrorType.InvalidHeightChar⟩) :=
  C6_invalid_char_position (List.replicate 16 48) (List.replicate 16 48)
    [49, 50, 51, 52] [] (by decide) (by decide) (by decide) (by decide)
    (by decide) (by decide)

/-! The elevation invariant across every storing operation (claim
C10). -/

theorem parseRowCells_ok_valid (n : Nat) : ∀ (bytes : List Nat)
    (line c : Nat) (hs : List Int) (c2 : Nat) (rest : List Nat),
    parseRowCells n bytes line c = some (Except.ok (hs, c2, rest)) →
    ∀ h ∈ hs, check_height h = true := by
  induction n with
  | zero =>
    intro bytes line c hs c2 rest hp
    simp only [parseRowCells, Option.some.injEq, Except.ok.injEq,
      Prod.mk.injEq] at hp
    obtain ⟨rfl, -, -⟩ := hp
    intro h hh
    exact absurd hh (by simp)
  | succ n ih =>
    intro bytes line c hs c2 rest hp
    simp only [parseRowCells] at hp
    cases hcell : parseCell bytes line c with
    | none =>
      rw [hcell] at hp
      exact absurd hp (by simp)
    | some r =>
      rw [hcell] at hp
      cases r with
      | error e2 => exact absurd hp (by simp)
      | ok v =>
        obtain ⟨h0, c3, rest1⟩ := v
        simp only at hp
        by_cases hch : check_height h0 = true
        · rw [if_pos hch] at hp
          cases hrec : parseRowCells n rest1 line (c3 + 1) with
          | none =>
            rw [hrec] at hp
            exact absurd hp (by simp)
          | some r2 =>
            rw [hrec] at hp
            cases r2 with
            | error e2 => exact absurd hp (by simp)
            | ok v2 =>
              obtain ⟨hs2, c4, rest2⟩ := v2
              simp only [Option.some.injEq, Except.ok.injEq,
                Prod.mk.injEq] at hp
              obtain ⟨rfl, -, -⟩ := hp
              intro h hh
              rcases List.mem_cons.mp hh with rfl | hh2
              · exact hch
              · exact ih rest1 line (c3 + 1) hs2 c4 rest2 hrec h hh2
        · rw [if_neg hch] at hp
          exact absurd hp (by simp)

theorem parseHeightRows_ok_valid (n : Nat) : ∀ (bytes : List Nat)
    (line : Nat) (rows : List (List Int)) (l2 : Nat) (rest : List Nat),
    parseHeightRows n bytes line = some (Except.ok (rows, l2, rest)) →
    ∀ row ∈ rows, ∀ h ∈ row, check_height h = true := by
  induction n with
  | zero =>
    intro bytes line rows l2 rest hp
    simp only [parseHeightRows, Option.some.injEq, Except.ok.injEq,
      Prod.mk.injEq] at hp
    obtain ⟨rfl, -, -⟩ := hp
    intro row hrow
    exact absurd hrow (by simp)
  | succ n ih =>
    intro bytes line rows l2 rest hp
    simp only [parseHeightRows] at hp
    cases hrow : parseRowCells 16 bytes line 1 with
    | none =>
      rw [hrow] at hp
      exact absurd hp (by simp)
    | some r =>
      rw [hrow] at hp
      cases r with
      | error e2 => exact absurd hp (by simp)
      | ok v =>
        obtain ⟨hs, col, rest1⟩ := v
        match rest1 with
        | [] => exact absurd hp (by simp)
        | b :: rest2 =>
          simp only [check_for_newline] at hp
          split_ifs at hp
          · exact absurd hp (by simp)
          · cases hrec : parseHeightRows n rest2 (line + 1) with
            | none =>
              rw [hrec] at hp
              exact absurd hp (by simp)
            | some r2 =>
              rw [hrec] at hp
              cases r2 with
              | error e2 => exact absurd hp (by simp)
              | ok v2 =>
                obtain ⟨rows2, l3, rest3⟩ := v2
                simp only [Option.some.injEq, Except.ok.injEq,
                  Prod.mk.injEq] at hp
                obtain ⟨rfl, -, -⟩ := hp
                intro row hr
                rcases List.mem_cons.mp hr with rfl | hr2
                · exact parseRowCells_ok_valid 16 bytes line 1 row col
                    (b :: rest2) hrow
                · exact ih rest2 (line + 1) rows2 l3 rest3 hrec row hr2

theorem mem_zipWith_tile (hs : List Int) : ∀ (ps : List Prefab) (t : Tile),
    t ∈ List.zipWith (fun h p => Tile.mk h p) hs ps → t.height ∈ hs := by
  induction hs with
  | nil =>
    intro ps t ht
    exact absurd ht (by simp)
  | cons h hs ih =>
    intro ps t ht
    cases ps with
    | nil => exact absurd ht (by simp)
    | cons p ps =>
      simp only [List.zipWith_cons_cons] at ht
      rcases List.mem_cons.mp ht with rfl | ht2
      · simp
      · simp only [List.mem_cons]
        exact Or.inr (ih ps t ht2)

theorem mk_tiles (x : List Tile) : (CyberGrindPattern.mk x).tiles = x :=
  rfl

theorem mem_foldl_set (f : Nat → Nat) (idxs : List Nat) (tile : Tile) :
    ∀ (ts : List Tile) (x : Tile),
    x ∈ idxs.foldl (fun a i => a.set (f i) tile) ts → x ∈ ts ∨ x = tile := by
  induction idxs with
  | nil =>
    intro ts x hx
    exact Or.inl hx
  | cons i idxs ih =>
    intro ts x hx
    simp only [List.foldl_cons] at hx
    rcases ih (ts.set (f i) tile) x hx with hx2 | hx2
    · exact List.mem_or_eq_of_mem_set hx2
    · exact Or.inr hx2

theorem mem_foldl_set_pairs (ps : List (Nat × Tile)) :
    ∀ (ts : List Tile) (x : Tile),
    x ∈ ps.foldl (fun a iv => a.set iv.1 iv.2) ts →
    x ∈ ts ∨ ∃ iv ∈ ps, x = iv.2 := by
  induction ps with
  | nil =>
    intro ts x hx
    exact Or.inl hx
  | cons iv ps ih =>
    intro ts x hx
    simp only [List.foldl_cons] at hx
    rcases ih (ts.set iv.1 iv.2) x hx with hx2 | hx2
    · rcases List.mem_or_eq_of_mem_set hx2 with hx3 | hx3
      · exact Or.inl hx3
      · exact Or.inr ⟨iv, by simp, hx3⟩
    · obtain ⟨iv2, hiv2, hxeq⟩ := hx2
      exact Or.inr ⟨iv2, by simp [hiv2], hxeq⟩

theorem mem_enumFrom_snd (l : List Tile) : ∀ (n : Nat) (p : Nat × Tile),
    p ∈ l.enumFrom n → p.2 ∈ l := by
  induction l with
  | nil =>
    intro n p hp
    exact absurd hp (by simp)
  | cons x xs ih =>
    intro n p hp
    simp only [List.enumFrom] at hp
    rcases List.mem_cons.mp hp with rfl | hp2
    · simp
    · simp only [List.mem_cons]
      exact Or.inr (ih (n + 1) p hp2)

/-- C10: tiles reach a pattern only through the elevation gate.  A
successfully parsed grid contains only heights that passed the
parser's range checks; the fresh pattern is all zeros; every Tile
constructor or height mutation that returns at all returns an in-range
tile; and the bulk operations (vector construction, row and column
fills, line set) preserve the invariant when fed in-range tiles. -/
theorem C10_elevation_invariant :
    (∀ bytes g, parse bytes = some (Except.ok g) →
      ∀ t ∈ g.tiles, check_height t.height = true) ∧
    (∀ t ∈ CyberGrindPattern.new.tiles, check_height t.height = true) ∧
    (∀ h p t, Tile.new h p = some t → check_height t.height = true) ∧
    (∀ h t, Tile.with_height h = some t → check_height t.height = true) ∧
    (∀ t h t2, Tile.set_height t h = some t2 →
      check_height t2.height = true) ∧
    (∀ h t, Tile.fromHeight h = some t → check_height t.height = true) ∧
    (∀ t d t2, Tile.addHeight t d = some t2 →
      check_height t2.height = true) ∧
    (∀ t d t2, Tile.subHeight t d = some t2 →
      check_height t2.height = true) ∧
    (∀ values, (∀ v ∈ values, check_height v.height = true) →
      ∀ t ∈ (CyberGrindPattern.from_vec values).tiles,
        check_height t.height = true) ∧
    (∀ p tile row, (∀ t ∈ p.tiles, check_height t.height = true) →
      check_height tile.height = true →
      ∀ t ∈ (CyberGrindPattern.copy_tile_to_row p tile row).tiles,
        check_height t.height = true) ∧
    (∀ p tile col, (∀ t ∈ p.tiles, check_height t.height = true) →
      check_height tile.height = true →
      ∀ t ∈ (CyberGrindPattern.copy_tile_to_column p tile col).tiles,
        check_height t.height = true) ∧
    (∀ p l tile, (∀ t ∈ p.tiles, check_height t.height = true) →
      check_height tile.height = true →
      ∀ t ∈ (Line.set p l tile).tiles, check_height t.height = true) := by
  refine ⟨?_, ?_, ?_, ?_, ?_, ?_, ?_, ?_, ?_, ?_, ?_, ?_⟩
  · intro bytes g hp t ht
    simp only [parse] at hp
    cases hhr : parseHeightRows 16 bytes 1 with
    | none =>
      rw [hhr] at hp
      exact absurd hp (by simp)
    | some r =>
      rw [hhr] at hp
      cases r with
      | error e2 => exact absurd hp (by simp)
      | ok v =>
        obtain ⟨hrows, line2, rest⟩ := v
        match rest with
        | [] => exact absurd hp (by simp)
        | b :: rest2 =>
          simp only [check_for_newline] at hp
          split_ifs at hp
          · exact absurd hp (by simp)
          · cases hpr : parsePrefabRows 16 rest2 (line2 + 1) with
            | none =>
              rw [hpr] at hp
              exact absurd hp (by simp)
            | some r2 =>
              rw [hpr] at hp
              cases r2 with
              | error e2 => exact absurd hp (by simp)
              | ok v2 =>
                obtain ⟨prows, rest3⟩ := v2
                simp only [Option.some.injEq, Except.ok.injEq] at hp
                subst hp
                have hmem := mem_zipWith_tile hrows.flatten prows.flatten
                  t ht
                obtain ⟨row, hrow, hin⟩ := List.mem_flatten.mp hmem
                exact parseHeightRows_ok_valid 16 bytes 1 hrows line2
                  (b :: rest2) hhr row hrow t.height hin
  · intro t ht
    have := List.eq_of_mem_replicate ht
    subst this
    decide
  · intro h p t hp
    unfold Tile.new at hp
    by_cases hch : check_height h = true
    · rw [if_pos hch] at hp
      obtain rfl : Tile.mk h p = t := by injection hp
      exact hch
    · rw [if_neg hch] at hp
      exact absurd hp (by simp)
  · intro h t hp
    unfold Tile.with_height at hp
    by_cases hch : check_height h = true
    · rw [if_pos hch] at hp
      obtain rfl : Tile.mk h Prefab.None = t := by injection hp
      exact hch
    · rw [if_neg hch] at hp
      exact absurd hp (by simp)
  · intro t h t2 hp
    unfold Tile.set_height at hp
    by_cases hch : check_height h = true
    · rw [if_pos hch] at hp
      obtain rfl : Tile.mk h t.prefab = t2 := by injection hp
      exact hch
    · rw [if_neg hch] at hp
      exact absurd hp (by simp)
  · intro h t hp
    unfold Tile.fromHeight at hp
    by_cases hch : check_height h = true
    · rw [if_pos hch] at hp
      obtain rfl : Tile.mk h Prefab.None = t := by injection hp
      exact hch
    · rw [if_neg hch] at hp
      exact absurd hp (by simp)
  · intro t d t2 hp
    unfold Tile.addHeight at hp
    simp only at hp
    by_cases hch : check_height (wrap8 (t.height + d)) = true
    · rw [if_pos hch] at hp
      obtain rfl : Tile.mk (wrap8 (t.height + d)) t.prefab = t2 := by
        injection hp
      exact hch
    · rw [if_neg hch] at hp
      exact absurd hp (by simp)
  · intro t d t2 hp
    unfold Tile.subHeight at hp
    simp only at hp
    by_cases hch : check_height (wrap8 (t.height - d)) = true
    · rw [if_pos hch] at hp
      obtain rfl : Tile.mk (wrap8 (t.height - d)) t.prefab = t2 := by
        injection hp
      exact hch
    · rw [if_neg hch] at hp
      exact absurd hp (by simp)
  · intro values hval t ht
    rw [CyberGrindPattern.from_vec, mk_tiles] at ht
    rcases mem_foldl_set_pairs ((values.take 256).enum)
      CyberGrindPattern.new.tiles t ht with ht2 | ⟨iv, hiv, rfl⟩
    · have := List.eq_of_mem_replicate ht2
      subst this
      decide
    · have hv2 : iv.2 ∈ values.take 256 := by
        have := mem_enumFrom_snd (values.take 256) 0 iv
        rw [← List.enum_eq_enumFrom] at this
        exact this hiv
      exact hval iv.2 (List.take_subset 256 values hv2)
  · intro p tile row hval htile t ht
    rw [CyberGrindPattern.copy_tile_to_row, mk_tiles] at ht
    rcases mem_foldl_set (fun i => i + row * 16) (List.range 16) tile
      p.tiles t ht with ht2 | rfl
    · exact hval t ht2
    · exact htile
  · intro p tile col hval htile t ht
    rw [CyberGrindPattern.copy_tile_to_column, mk_tiles] at ht
    rcases mem_foldl_set (fun i => i * 16 + col) (List.range 16) tile
      p.tiles t ht with ht2 | rfl
    · exact hval t ht2
    · exact htile
  · intro p l tile hval htile t ht
    rw [Line.set, mk_tiles] at ht
    rcases mem_foldl_set (fun i => i) (l.buf.take l.len) tile p.tiles t ht
      with ht2 | rfl
    · exact hval t ht2
    · exact htile

/-- C10 witness: the constructor conjunct applied at a concrete
height. -/
theorem C10_witness : check_height ((Tile.mk 7 Prefab.None).height) = true :=
  C10_elevation_invariant.2.2.1 7 Prefab.None ⟨7, Prefab.None⟩ (by decide)

end Tinycbg
